/-
Verification of the multi-level map data model and fiducial-based
transform estimator of traffic_editor (src/traffic_editor/gui/map.cpp),
as a shallow embedding in Lean 4.

Modelling conventions:
* C++ `double` values are modelled by `Dbl := Option ℚ`: `some q` is the
  finite value `q`, `none` stands for any non-finite value (NaN or ±Inf).
  Arithmetic on finite operands is exact rational arithmetic (overflow to
  infinity is not modelled); any operation with a non-finite operand, and
  any division by zero, yields `none`.  For the operations reachable in
  this code (sums, products, and divisions whose denominators are finite)
  this abstraction is exact.
* `std::sqrt` is modelled by `sqrtQ`, which is exact on rationals whose
  square root is rational (every concrete input used below) and returns
  an unspecified positive value on other positive inputs.
* `std::vector` indexing with an out-of-range index is undefined
  behaviour; public member functions model it by returning `none`
  (no defined result state).  Internal helpers that the source documents
  as "assumes bounds checking has already happened" use `getD` with a
  placeholder level, and are only applied at in-range indices here.
* Code of the repository that is not part of map.cpp (Level/Lift/Fiducial
  internals declared in headers) is either modelled from the spec (plain
  data fields, Euclidean distance) or taken as a function parameter (the
  Level::from_yaml / Lift::from_yaml / Level::delete_selected /
  Level::remove_polygon_vertex bodies), so the theorems below hold for
  all possible behaviours of those missing bodies.
* I/O side effects (qDebug/printf logging, file reads and writes, and the
  process-wide chdir in load_yaml) are outside the state model.
-/
import Mathlib

set_option maxRecDepth 10000
set_option maxHeartbeats 1000000

namespace TrafficEditor

/-! ## Numeric model -/

/-- Model of a C++ double: `some q` is a finite value, `none` is NaN/±Inf. -/
def Dbl : Type := Option ℚ

instance : DecidableEq Dbl := by unfold Dbl; infer_instance

/-- Finite double literal. -/
def fin (q : ℚ) : Dbl := some q

/-- Addition of doubles: finite + finite is exact, anything non-finite
propagates (Inf + finite = Inf, NaN + x = NaN, Inf - Inf = NaN: all `none`). -/
def dadd : Dbl → Dbl → Dbl
  | some a, some b => some (a + b)
  | _, _ => none

/-- Subtraction of doubles, same conventions as `dadd`. -/
def dsub : Dbl → Dbl → Dbl
  | some a, some b => some (a - b)
  | _, _ => none

/-- Multiplication of doubles, same conventions as `dadd`
(0 * Inf = NaN, finite * Inf = ±Inf: all non-finite, hence `none`). -/
def dmul : Dbl → Dbl → Dbl
  | some a, some b => some (a * b)
  | _, _ => none

/-- Division of doubles: division by zero gives Inf or NaN (`none`);
a non-finite operand gives a result modelled as non-finite (exact for
every division performed by this code, whose denominators are always
finite). -/
def ddiv : Dbl → Dbl → Dbl
  | some a, some b => if b = 0 then none else some (a / b)
  | _, _ => none

/-- Fuel-bounded exact integer square root search: the largest `r`
reached by counting up while `(r+1)^2 ≤ n`, starting from `r` with the
given fuel.  Only its value under the self-certifying perfect-square
guard in `sqrtQ` matters. -/
def isqrtGo (n : ℕ) : ℕ → ℕ → ℕ
  | r, 0 => r
  | r, fuel+1 => if (r+1)*(r+1) ≤ n then isqrtGo n (r+1) fuel else r

/-- Integer square root used by `sqrtQ`. -/
def isqrt (n : ℕ) : ℕ := isqrtGo n 0 n

/-- Model of std::sqrt on a non-negative double: exact when the square
root is rational (every concrete input in this file), and an unspecified
positive value (the argument itself) on other positive inputs; 0 on
non-positive inputs (the arguments used here are sums of squares). -/
def sqrtQ (q : ℚ) : ℚ :=
  if q ≤ 0 then 0
  else if isqrt q.num.natAbs * isqrt q.num.natAbs = q.num.natAbs ∧
      isqrt q.den * isqrt q.den = q.den
  then (isqrt q.num.natAbs : ℚ) / (isqrt q.den : ℚ) else q

/-! ## Data model

The entity structures are declared in headers that are not under src/;
their fields are modelled from the spec (section 3: Vertex, Fiducial,
Model, Edge, Level, Lift, Transform, Map). -/

/-- Modelled from the spec: a vertex is a 2-D point (editor-only
selection/annotation state is out of scope). -/
structure Vertex where
  x : ℚ
  y : ℚ
deriving DecidableEq

/-- Modelled from the spec: a fiducial is a named 2-D point; names are the
join key for cross-level alignment. -/
structure Fiducial where
  name : String
  x : ℚ
  y : ℚ
deriving DecidableEq

/-- Modelled from the spec: a placed model is a 2-D point with a yaw, a
model-type name and an instance name. -/
structure Model where
  x : ℚ
  y : ℚ
  yaw : ℚ
  model_name : String
  instance_name : String
deriving DecidableEq

/-- Modelled from the spec: an edge is an ordered pair of vertex indices
with an enumerated kind, opaque to this core beyond storage. -/
structure Edge where
  start_idx : ℤ
  end_idx : ℤ
  edge_type : ℕ
deriving DecidableEq

/-- Modelled from the spec: one floor of the building. -/
structure Level where
  name : String
  drawing_meters_per_pixel : Dbl
  vertices : List Vertex
  fiducials : List Fiducial
  models : List Model
  edges : List Edge
deriving DecidableEq

/-- Placeholder level used only to totalise internal accesses at indices
the source assumes to be in range. -/
def defLevel : Level := ⟨"", none, [], [], [], []⟩

/-- Modelled from the spec: a lift, of which only the name and the
reference floor name matter to this core. -/
structure Lift where
  name : String
  reference_floor_name : String
deriving DecidableEq

/-- The transform struct of map.h (spec section 3): scale and per-axis
translation. -/
structure Transform where
  scale : Dbl
  dx : Dbl
  dy : Dbl
deriving DecidableEq

/-- The map aggregate: building name, reference level name, levels,
lifts, and the memoized transform cache (std::map from the ordered
index pair to the transform, modelled as an association list). -/
structure Map where
  building_name : String
  reference_level_name : String
  levels : List Level
  lifts : List Lift
  transforms : List ((ℤ × ℤ) × Transform)
deriving DecidableEq

/-- Checked ℤ-indexed vector read: `none` models the undefined behaviour
of std::vector indexing out of range. -/
def zget (l : List Level) (i : ℤ) : Option Level :=
  if i < 0 then none else l[i.toNat]?

/-- ℤ-indexed vector write at an index already validated by `zget`. -/
def zset (l : List Level) (i : ℤ) (lvl : Level) : List Level :=
  l.set i.toNat lvl

/-! ## Transform estimator (Map::compute_transform) -/

/-- Modelled from the spec: Fiducial::distance is the Euclidean norm of
the difference (spec section 3: distance(a,b) = Euclidean norm). -/
def fdist (a b : Fiducial) : ℚ :=
  sqrtQ ((a.x - b.x) * (a.x - b.x) + (a.y - b.y) * (a.y - b.y))

/-- Inner loop of the fiducial matching in Map::compute_transform: scan
the to-level's fiducials in order and stop at the first one whose name
equals the given fiducial's name (the `break`). -/
def firstMatch (f0 : Fiducial) : List Fiducial → Option Fiducial
  | [] => none
  | f1 :: rest => if f0.name == f1.name then some f1 else firstMatch f0 rest

/-- Outer loop of the fiducial matching in Map::compute_transform: for
each fiducial of the from-level in order, pair it with its first
name-match in the to-level, if any. -/
def matchedFiducials : List Fiducial → List Fiducial → List (Fiducial × Fiducial)
  | [], _ => []
  | f0 :: rest, fs1 =>
    match firstMatch f0 fs1 with
    | some f1 => (f0, f1) :: matchedFiducials rest fs1
    | none => matchedFiducials rest fs1

/-- The `distances` vector of Map::compute_transform: for every index
pair f0_idx < f1_idx of matched pairs, the from-level and to-level
inter-fiducial distances, in the double-loop order of the source. -/
def distancePairs : List (Fiducial × Fiducial) → List (ℚ × ℚ)
  | [] => []
  | p :: rest => rest.map (fun q => (fdist p.1 q.1, fdist p.2 q.2)) ++ distancePairs rest

/-- Core of Map::compute_transform on the two levels' fiducial lists:
mean of the relative distance ratios as the scale, then the mean of the
per-axis translation estimates.  The two divisions divide by the element
counts exactly as the source does, so an empty `distances` or fiducial
list divides by zero. -/
def estimateTransform (fs0 fs1 : List Fiducial) : Transform :=
  let fiducials := matchedFiducials fs0 fs1
  let distances := distancePairs fiducials
  let relative_scale_sum :=
    distances.foldl (fun acc d => dadd acc (ddiv (fin d.2) (fin d.1))) (fin 0)
  let scale := ddiv relative_scale_sum (fin (distances.length : ℚ))
  let trans_x_sum :=
    fiducials.foldl (fun acc f => dadd acc (dsub (fin f.2.x) (dmul (fin f.1.x) scale))) (fin 0)
  let trans_y_sum :=
    fiducials.foldl (fun acc f => dadd acc (dsub (fin f.2.y) (dmul (fin f.1.y) scale))) (fin 0)
  { scale := scale
    dx := ddiv trans_x_sum (fin (fiducials.length : ℚ))
    dy := ddiv trans_y_sum (fin (fiducials.length : ℚ)) }

/-- Map::compute_transform: reads the two levels (the source notes that
"this internal function assumes that bounds checking has already
happened"; out-of-range indices are totalised with `defLevel` and never
reached by the theorems below) and estimates the transform from their
fiducials. -/
def Map.compute_transform (m : Map) (from_level_idx to_level_idx : ℤ) : Transform :=
  estimateTransform
    ((m.levels.getD from_level_idx.toNat defLevel).fiducials)
    ((m.levels.getD to_level_idx.toNat defLevel).fiducials)

/-! ## Transform cache (Map::get_transform and friends) -/

/-- Lookup in the transform cache (std::map::find keyed by the ordered
index pair). -/
def lookupTransform (ts : List ((ℤ × ℤ) × Transform)) (k : ℤ × ℤ) : Option Transform :=
  (ts.find? (fun e => decide (e.1 = k))).map (fun e => e.2)

/-- Map::get_transform: return the memoized transform for the exact
ordered pair if present, otherwise compute it, store it, and return
it. -/
def Map.get_transform (m : Map) (from_level_idx to_level_idx : ℤ) : Transform × Map :=
  match lookupTransform m.transforms (from_level_idx, to_level_idx) with
  | some t => (t, m)
  | none =>
    let t := m.compute_transform from_level_idx to_level_idx
    (t, { m with transforms := ((from_level_idx, to_level_idx), t) :: m.transforms })

/-- Map::clear_transform_cache. -/
def Map.clear_transform_cache (m : Map) : Map :=
  { m with transforms := [] }

/-- Map::get_reference_level_idx: index of the level whose name equals
reference_level_name; 0 when the name is empty or not found. -/
def Map.get_reference_level_idx (m : Map) : ℤ :=
  if m.reference_level_name = "" then 0
  else
    match m.levels.findIdx? (fun l => l.name == m.reference_level_name) with
    | some k => (k : ℤ)
    | none => 0

/-- First loop of Map::calculate_all_transforms: eagerly get (and hence
cache) the transform of every ordered pair of level indices. -/
def populateTransforms (m : Map) (pairs : List (ℤ × ℤ)) : Map :=
  pairs.foldl (fun acc p => (acc.get_transform p.1 p.2).2) m

/-- The assignment `levels[k].drawing_meters_per_pixel = v`. -/
def setDmpp (m : Map) (k : ℕ) (v : Dbl) : Map :=
  { m with
    levels := m.levels.modify (fun lvl => { lvl with drawing_meters_per_pixel := v }) k }

/-- Second loop of Map::calculate_all_transforms: for each level index
other than the (re-evaluated) reference index, rewrite its drawing scale
to ref_scale / scale(ref → level).  The source calls get_transform once
per iteration; the embedding is pure, so the two occurrences below
denote that single call. -/
def scaleLoop (ref_idx : ℤ) (ref_scale : Dbl) : Map → List ℤ → Map
  | m, [] => m
  | m, i :: rest =>
    if i ≠ m.get_reference_level_idx then
      scaleLoop ref_idx ref_scale
        (setDmpp (m.get_transform ref_idx i).2 i.toNat
          (ddiv ref_scale (m.get_transform ref_idx i).1.scale))
        rest
    else scaleLoop ref_idx ref_scale m rest

/-- All ordered pairs (i, j) of level indices, in the order of the
double loop of Map::calculate_all_transforms. -/
def allLevelPairs (n : ℕ) : List (ℤ × ℤ) :=
  (List.range n).flatMap (fun i => (List.range n).map (fun j => ((i : ℤ), (j : ℤ))))

/-- The counter values of an `int i` loop from 0 to n - 1. -/
def intRange (n : ℕ) : List ℤ := (List.range n).map (fun i => (i : ℤ))

/-- The state after the first half of Map::calculate_all_transforms:
cache cleared, then every ordered pair eagerly computed and cached. -/
def populateAll (m : Map) : Map :=
  populateTransforms m.clear_transform_cache (allLevelPairs m.levels.length)

/-- Map::calculate_all_transforms: clear the cache, compute all pairwise
transforms, then normalize every non-reference level's drawing scale
against the reference level's (`const int ref_idx` and
`const double ref_scale` are read once before the loop; the embedding
is pure, so the repeated `populateAll m` occurrences denote that single
intermediate state). -/
def Map.calculate_all_transforms (m : Map) : Map :=
  scaleLoop (populateAll m).get_reference_level_idx
    (((populateAll m).levels.getD (populateAll m).get_reference_level_idx.toNat
      defLevel)).drawing_meters_per_pixel
    (populateAll m) (intRange m.levels.length)

/-! ## Mutation operations -/

/-- Map::add_vertex: no-op when the level index is not below the level
count; otherwise push a vertex (a negative index would be an unchecked
out-of-range access, `none`). -/
def Map.add_vertex (m : Map) (level_index : ℤ) (x y : ℚ) : Option Map :=
  if (m.levels.length : ℤ) ≤ level_index then some m
  else
    match zget m.levels level_index with
    | none => none
    | some lvl =>
      let lvl' := { lvl with vertices := lvl.vertices ++ [⟨x, y⟩] }
      some { m with levels := zset m.levels level_index lvl' }

/-- Map::add_fiducial, same checking as add_vertex.  The two-argument
Fiducial constructor (declared in a header not under src/) is modelled
as leaving the name empty. -/
def Map.add_fiducial (m : Map) (level_index : ℤ) (x y : ℚ) : Option Map :=
  if (m.levels.length : ℤ) ≤ level_index then some m
  else
    match zget m.levels level_index with
    | none => none
    | some lvl =>
      let lvl' := { lvl with fiducials := lvl.fiducials ++ [⟨"", x, y⟩] }
      some { m with levels := zset m.levels level_index lvl' }

/-- Map::add_edge, same checking as add_vertex. -/
def Map.add_edge (m : Map) (level_index start_vertex_index end_vertex_index : ℤ)
    (edge_type : ℕ) : Option Map :=
  if (m.levels.length : ℤ) ≤ level_index then some m
  else
    match zget m.levels level_index with
    | none => none
    | some lvl =>
      let lvl' := { lvl with edges := lvl.edges ++ [⟨start_vertex_index, end_vertex_index, edge_type⟩] }
      some { m with levels := zset m.levels level_index lvl' }

/-- Map::add_model, same checking as add_vertex; the instance name is the
model name. -/
def Map.add_model (m : Map) (level_idx : ℤ) (x y yaw : ℚ) (model_name : String) :
    Option Map :=
  if (m.levels.length : ℤ) ≤ level_idx then some m
  else
    match zget m.levels level_idx with
    | none => none
    | some lvl =>
      let lvl' := { lvl with models := lvl.models ++ [⟨x, y, yaw, model_name, model_name⟩] }
      some { m with levels := zset m.levels level_idx lvl' }

/-- Map::set_model_yaw: guarded on the level index only; the model index
is an unchecked vector access. -/
def Map.set_model_yaw (m : Map) (level_idx model_idx : ℤ) (yaw : ℚ) : Option Map :=
  if (m.levels.length : ℤ) ≤ level_idx then some m
  else
    match zget m.levels level_idx with
    | none => none
    | some lvl =>
      if model_idx < 0 ∨ (lvl.models.length : ℤ) ≤ model_idx then none
      else
        let setYaw := fun (mo : Model) => { mo with yaw := yaw }
        let lvl' := { lvl with models := lvl.models.modify setYaw model_idx.toNat }
        some { m with levels := zset m.levels level_idx lvl' }

/-- Map::delete_selected: false without mutation when the level index is
not below the count; otherwise delegate to Level::delete_selected (not
under src/, taken as the parameter `del`, which returns the mutated
level and the success flag). -/
def Map.delete_selected (del : Level → Level × Bool) (m : Map) (level_index : ℤ) :
    Option (Map × Bool) :=
  if (m.levels.length : ℤ) ≤ level_index then some (m, false)
  else
    match zget m.levels level_index with
    | none => none
    | some lvl =>
      let r := del lvl
      some ({ m with levels := zset m.levels level_index r.1 }, r.2)

/-- Map::remove_polygon_vertex: the source guards
`level_idx < 0 || level_idx > levels.size()` (strict), then accesses
levels[level_idx] and delegates to Level::remove_polygon_vertex (not
under src/, taken as the parameter `rm` applied to polygon and vertex
index). -/
def Map.remove_polygon_vertex (rm : ℤ → ℤ → Level → Level) (m : Map)
    (level_idx polygon_idx vertex_idx : ℤ) : Option Map :=
  if level_idx < 0 ∨ (m.levels.length : ℤ) < level_idx then some m
  else
    match zget m.levels level_idx with
    | none => none
    | some lvl =>
      some { m with levels := zset m.levels level_idx (rm polygon_idx vertex_idx lvl) }

/-- Map::clear: empty the building name and the level list (lifts and
the transform cache are left as they are). -/
def Map.clear (m : Map) : Map :=
  { m with building_name := "", levels := [] }

/-- Map::add_level: append the level unless its name duplicates an
existing level's name. -/
def Map.add_level (m : Map) (new_level : Level) : Map :=
  if m.levels.any (fun l => l.name == new_level.name) then m
  else { m with levels := m.levels ++ [new_level] }

/-! ## Query operations -/

/-- Shared shape of the linear nearest-entity scans: fold over the
points with their indices, keeping the smallest squared distance and its
index, starting from 1e100 and -1. -/
def minDistScan (pts : List (ℚ × ℚ)) (x y : ℚ) : ℚ × ℤ :=
  pts.enum.foldl
    (fun acc iv =>
      let dx := x - iv.2.1
      let dy := y - iv.2.2
      let dist2 := dx * dx + dy * dy
      if dist2 < acc.1 then (dist2, (iv.1 : ℤ)) else acc)
    ((10 : ℚ) ^ 100, -1)

/-- Map::find_nearest_vertex_index: NOTE the source has no bounds check
on the level index, so an out-of-range index dereferences the vector out
of range (`none`).  In range, returns the index of the nearest vertex
(-1 when there are none) together with the distance output parameter. -/
def Map.find_nearest_vertex_index (m : Map) (level_index : ℤ) (x y : ℚ) :
    Option (ℤ × ℚ) :=
  match zget m.levels level_index with
  | none => none
  | some lvl =>
    let r := minDistScan (lvl.vertices.map (fun v => (v.x, v.y))) x y
    some (r.2, sqrtQ r.1)

/-- The NearestItem result of Map::nearest_items; the field defaults are
declared in map.h (not under src/) and are modelled from the use in the
scans: sentinel index -1 and an initial distance of 1e100. -/
structure NearestItem where
  vertex_idx : ℤ := -1
  vertex_dist : ℚ := (10 : ℚ) ^ 100
  fiducial_idx : ℤ := -1
  fiducial_dist : ℚ := (10 : ℚ) ^ 100
  model_idx : ℤ := -1
  model_dist : ℚ := (10 : ℚ) ^ 100
deriving DecidableEq

/-- The scan shape of Map::nearest_items, which (unlike the other two
queries) takes the square root inside the loop and compares true
distances against the running minimum. -/
def minTrueDistScan (pts : List (ℚ × ℚ)) (x y : ℚ) : ℚ × ℤ :=
  pts.enum.foldl
    (fun acc iv =>
      let dx := x - iv.2.1
      let dy := y - iv.2.2
      let dist := sqrtQ (dx * dx + dy * dy)
      if dist < acc.1 then (dist, (iv.1 : ℤ)) else acc)
    ((10 : ℚ) ^ 100, -1)

/-- Map::nearest_items: default-valued result when the level index is
not below the count; otherwise three linear scans storing true
distances.  A negative index passes the guard and dereferences out of
range (`none`). -/
def Map.nearest_items (m : Map) (level_index : ℤ) (x y : ℚ) : Option NearestItem :=
  if (m.levels.length : ℤ) ≤ level_index then some {}
  else
    match zget m.levels level_index with
    | none => none
    | some lvl =>
      let v := minTrueDistScan (lvl.vertices.map (fun p => (p.x, p.y))) x y
      let f := minTrueDistScan (lvl.fiducials.map (fun p => (p.x, p.y))) x y
      let mo := minTrueDistScan (lvl.models.map (fun p => (p.x, p.y))) x y
      some
        { vertex_idx := v.2, vertex_dist := v.1
          fiducial_idx := f.2, fiducial_dist := f.1
          model_idx := mo.2, model_dist := mo.1 }

/-- The entity selector of Map::nearest_item_index_if_within_distance. -/
inductive ItemType where
  | VERTEX
  | FIDUCIAL
  | MODEL
deriving DecidableEq

/-- Map::nearest_item_index_if_within_distance: -1 when the level index
is not below the count; otherwise scan the selected entity list and
return the nearest index only if its distance beats the threshold.  A
negative index passes the guard and dereferences out of range. -/
def Map.nearest_item_index_if_within_distance (m : Map) (level_index : ℤ)
    (x y distance_threshold : ℚ) (item_type : ItemType) : Option ℤ :=
  if (m.levels.length : ℤ) ≤ level_index then some (-1)
  else
    match zget m.levels level_index with
    | none => none
    | some lvl =>
      let pts := match item_type with
        | .VERTEX => lvl.vertices.map (fun p => (p.x, p.y))
        | .FIDUCIAL => lvl.fiducials.map (fun p => (p.x, p.y))
        | .MODEL => lvl.models.map (fun p => (p.x, p.y))
      let r := minDistScan pts x y
      some (if sqrtQ r.1 < distance_threshold then r.2 else -1)

end TrafficEditor

namespace TrafficEditor

/-! ## Generic document model and canonical serialization -/

/-- The generic tree document (a YAML node): scalar, sequence, or
mapping.  A mapping is a key/value list in storage order. -/
inductive Yaml where
  | scalar : String → Yaml
  | seq : List Yaml → Yaml
  | map : List (String × Yaml) → Yaml

/-- Insert a string into a sorted list of strings. -/
def insertSorted (s : String) : List String → List String
  | [] => [s]
  | t :: ts => if s ≤ t then s :: t :: ts else t :: insertSorted s ts

/-- Model of the `std::sort` call on the collected keys of a mapping
node: the sorted permutation of the key list (insertion sort; any
correct sort produces the same list of strings). -/
def sortStrings : List String → List String
  | [] => []
  | s :: ss => insertSorted s (sortStrings ss)

/-- Model of yaml-cpp `node[key]` on a mapping node: the value of the
first entry with the given key.  The default branch is unreachable for
keys collected from the node itself. -/
def valueFor (k : String) (kvs : List (String × Yaml)) : Yaml :=
  match kvs.find? (fun kv => kv.1 == k) with
  | some kv => kv.2
  | none => Yaml.scalar ""

/-- Map::write_yaml_node, modelled as the canonical tree the emitter
receives (emitter styles affect only formatting): scalars are emitted as
is, sequences element by element in order, and mappings by collecting
the keys, sorting them, and recursing into `node[key]` for each sorted
key.  Values are canonicalized before key selection here; since
canonicalization preserves keys and first-entry lookup commutes with
mapping over values, this equals the source's order of operations. -/
def write_yaml_node : Yaml → Yaml
  | .scalar s => .scalar s
  | .seq xs => .seq (xs.attach.map (fun x => write_yaml_node x.1))
  | .map kvs =>
    let ckvs := kvs.attach.map (fun kv => (kv.1.1, write_yaml_node kv.1.2))
    .map ((sortStrings (ckvs.map Prod.fst)).map (fun k => (k, valueFor k ckvs)))
decreasing_by
  · have := List.sizeOf_lt_of_mem x.2
    simp only [Yaml.seq.sizeOf_spec]
    omega
  · have h1 : sizeOf kv.1 < sizeOf kvs := List.sizeOf_lt_of_mem kv.2
    have h2 : sizeOf kv.1.2 < sizeOf kv.1 := by
      cases kv.1 with
      | mk a b => simp
    simp only [Yaml.map.sizeOf_spec]
    omega

/-- Map::save_yaml: build the top-level node (building name, the
reference level name only when non-empty, levels and lifts as mappings
keyed by name) and emit it through write_yaml_node.  Level::to_yaml and
Lift::to_yaml are not under src/ and are taken as parameters. -/
def Map.save_yaml (level_to_yaml : Level → Yaml) (lift_to_yaml : Lift → Yaml)
    (m : Map) : Yaml :=
  let top : List (String × Yaml) :=
    [("building_name", Yaml.scalar m.building_name)] ++
    (if m.reference_level_name = "" then []
     else [("reference_level_name", Yaml.scalar m.reference_level_name)]) ++
    [("levels", Yaml.map (m.levels.map (fun l => (l.name, level_to_yaml l)))),
     ("lifts", Yaml.map (m.lifts.map (fun l => (l.name, lift_to_yaml l))))]
  write_yaml_node (Yaml.map top)

/-! ## Loading (Map::load_yaml) -/

/-- Model of yaml-cpp `y[key]` on an arbitrary node: a lookup on a
mapping, undefined (`none`) otherwise. -/
def ylookup (y : Yaml) (k : String) : Option Yaml :=
  match y with
  | .map kvs => (kvs.find? (fun kv => kv.1 == k)).map (fun kv => kv.2)
  | _ => none

/-- Model of the optional `as<string>` reads in load_yaml: absent is
fine, a scalar yields its string, and a non-scalar node makes
`as<string>` throw a bad-conversion error. -/
def strField : Option Yaml → Except String (Option String)
  | none => Except.ok none
  | some (.scalar s) => Except.ok (some s)
  | some _ => Except.error "bad conversion"

/-- Map::load_yaml on an already parsed document (the file read, the
qDebug logging and the process-wide chdir that precede any mutation are
I/O effects outside this model; a parse or chdir failure leaves the map
untouched).  The result pairs the state of the map object after the call
with the message of the exception thrown, if any: the C++ mutates the
object in place, so earlier assignments persist when a later step
throws.  Level::from_yaml and Lift::from_yaml are not under src/ and are
taken as the parameters `lvlParse` and `liftParse`. -/
def Map.load_yaml (lvlParse : String → Yaml → Level) (liftParse : String → Yaml → Lift)
    (m : Map) (y : Yaml) : Map × Option String :=
  match strField (ylookup y "building_name") with
  | .error e => (m, some e)
  | .ok ob =>
    let m := match ob with
      | some s => { m with building_name := s }
      | none => m
    match strField (ylookup y "reference_level_name") with
    | .error e => (m, some e)
    | .ok orf =>
      let m := match orf with
        | some s => { m with reference_level_name := s }
        | none => m
      match ylookup y "levels" with
      | some (.map lkvs) =>
        let m := { m with levels := lkvs.map (fun (kv : String × Yaml) => lvlParse kv.1 kv.2) }
        let m := match ylookup y "lifts" with
          | some (.map likvs) =>
            { m with lifts := m.lifts ++ likvs.map (fun (kv : String × Yaml) => liftParse kv.1 kv.2) }
          | _ => m
        (m.calculate_all_transforms, none)
      | _ => (m, some "expected top-level dictionary named 'levels'")

/-! ## Definitions taken from the spec's words, for the refinement
claims.  Each one follows the quoted spec sentence, to be compared with
the embedding of the source above. -/

/-- Spec 4.1 step 1: "for each fiducial in `from`, find the first
fiducial in `to` with an equal name (first match wins)". -/
def specMatches (fs0 fs1 : List Fiducial) : List (Fiducial × Fiducial) :=
  fs0.filterMap
    (fun f0 => (fs1.find? (fun f1 => f1.name == f0.name)).map (fun f1 => (f0, f1)))

/-- All unordered pairs (i, j), i < j, of a list, as ordered pairs in
index order. -/
def allPairsLt {α : Type} : List α → List (α × α)
  | [] => []
  | x :: xs => xs.map (fun y => (x, y)) ++ allPairsLt xs

/-- Spec 4.1 steps 2 and 3: "Estimate uniform `scale` as the arithmetic
mean of `d_to / d_from` over all pairs", over all unordered pairs of
matched fiducial pairs. -/
def specScale (ms : List (Fiducial × Fiducial)) : ℚ :=
  ((allPairsLt ms).map (fun pq => fdist pq.1.2 pq.2.2 / fdist pq.1.1 pq.2.1)).sum /
    ((allPairsLt ms).length : ℚ)

/-- Spec 4.1 step 4 (x axis): "the arithmetic mean, over all matched
fiducials, of `to.position - scale · from.position`". -/
def specDx (s : ℚ) (ms : List (Fiducial × Fiducial)) : ℚ :=
  (ms.map (fun p => p.2.x - s * p.1.x)).sum / (ms.length : ℚ)

/-- Spec 4.1 step 4 (y axis). -/
def specDy (s : ℚ) (ms : List (Fiducial × Fiducial)) : ℚ :=
  (ms.map (fun p => p.2.y - s * p.1.y)).sum / (ms.length : ℚ)

/-- A document all of whose mappings, at every nesting level, have their
keys sorted lexicographically. -/
inductive SortedDoc : Yaml → Prop where
  | scalar (s : String) : SortedDoc (.scalar s)
  | seq (xs : List Yaml) : (∀ x ∈ xs, SortedDoc x) → SortedDoc (.seq xs)
  | map (kvs : List (String × Yaml)) :
      List.Sorted (fun a b => a ≤ b) (kvs.map Prod.fst) →
      (∀ kv ∈ kvs, SortedDoc kv.2) → SortedDoc (.map kvs)

end TrafficEditor

namespace TrafficEditor

/-! ## Arithmetic helper lemmas -/

theorem ddiv_fin {a b : ℚ} (hb : b ≠ 0) : ddiv (fin a) (fin b) = fin (a / b) := by
  simp [ddiv, fin, hb]

theorem foldl_dadd_some {α : Type} (g : α → Dbl) (h : α → ℚ) :
    ∀ (l : List α) (c : ℚ), (∀ x ∈ l, g x = fin (h x)) →
      l.foldl (fun acc x => dadd acc (g x)) (fin c) = fin (c + (l.map h).sum)
  | [], c, _ => by simp [fin]
  | a :: t, c, hg => by
    have ha : g a = fin (h a) := hg a (by simp)
    have ht : ∀ x ∈ t, g x = fin (h x) := fun x hx => hg x (by simp [hx])
    simp only [List.foldl_cons, ha]
    show t.foldl (fun acc x => dadd acc (g x)) (fin (c + h a)) = _
    rw [foldl_dadd_some g h t (c + h a) ht]
    exact congrArg fin (by simp; ring)

theorem sqrtQ_pos {q : ℚ} (h : 0 < q) : 0 < sqrtQ q := by
  rw [sqrtQ, if_neg (not_le.mpr h)]
  by_cases hc : isqrt q.num.natAbs * isqrt q.num.natAbs = q.num.natAbs ∧
      isqrt q.den * isqrt q.den = q.den
  · rw [if_pos hc]
    have hnum : 0 < q.num := Rat.num_pos.mpr h
    have hn0 : isqrt q.num.natAbs ≠ 0 := by
      intro h0
      rw [h0] at hc
      have : q.num.natAbs = 0 := by omega
      omega
    have hd0 : isqrt q.den ≠ 0 := by
      intro h0
      rw [h0] at hc
      have := q.pos
      omega
    exact div_pos (by exact_mod_cast Nat.pos_of_ne_zero hn0)
      (by exact_mod_cast Nat.pos_of_ne_zero hd0)
  · rw [if_neg hc]
    exact h

theorem fdist_pos {a b : Fiducial} (h : (a.x, a.y) ≠ (b.x, b.y)) : 0 < fdist a b := by
  rw [fdist]
  apply sqrtQ_pos
  have h' : a.x ≠ b.x ∨ a.y ≠ b.y := by
    by_contra hcon
    push_neg at hcon
    exact h (by simp [Prod.ext_iff, hcon.1, hcon.2])
  rcases h' with hx | hy
  · have h1 : 0 < (a.x - b.x) * (a.x - b.x) := mul_self_pos.mpr (sub_ne_zero.mpr hx)
    nlinarith [mul_self_nonneg (a.y - b.y)]
  · have h1 : 0 < (a.y - b.y) * (a.y - b.y) := mul_self_pos.mpr (sub_ne_zero.mpr hy)
    nlinarith [mul_self_nonneg (a.x - b.x)]

/-! ## Structural lemmas about the estimator -/

theorem firstMatch_eq_find (f : Fiducial) (fs : List Fiducial) :
    firstMatch f fs = fs.find? (fun f1 => f1.name == f.name) := by
  induction fs with
  | nil => rfl
  | cons g t ih =>
    by_cases hh : f.name = g.name
    · rw [firstMatch, if_pos (by simp [hh]), List.find?_cons_of_pos _ (by simp [hh])]
    · rw [firstMatch, if_neg (by simp [hh]), ih,
        List.find?_cons_of_neg _ (by simp [Ne.symm hh])]

theorem matchedFiducials_eq_spec (fs0 fs1 : List Fiducial) :
    matchedFiducials fs0 fs1 = specMatches fs0 fs1 := by
  induction fs0 with
  | nil => rfl
  | cons f t ih =>
    rw [matchedFiducials, firstMatch_eq_find, specMatches, List.filterMap_cons]
    cases hf : fs1.find? (fun f1 => f1.name == f.name) with
    | none => simpa [specMatches] using ih
    | some f1 => simpa [specMatches] using ih

theorem distancePairs_eq (ms : List (Fiducial × Fiducial)) :
    distancePairs ms =
      (allPairsLt ms).map (fun pq => (fdist pq.1.1 pq.2.1, fdist pq.1.2 pq.2.2)) := by
  induction ms with
  | nil => rfl
  | cons p t ih => simp [distancePairs, allPairsLt, ih, List.map_map]

theorem allPairsLt_length_pos {α : Type} (l : List α) (h : 2 ≤ l.length) :
    0 < (allPairsLt l).length := by
  match l, h with
  | a :: b :: t, _ => simp [allPairsLt]

theorem allPairsLt_map {α β : Type} (g : α → β) (l : List α) :
    allPairsLt (l.map g) = (allPairsLt l).map (fun pq => (g pq.1, g pq.2)) := by
  induction l with
  | nil => rfl
  | cons x t ih => simp [allPairsLt, ih, List.map_map]

theorem allPairsLt_of_pairwise {α : Type} {R : α → α → Prop} :
    ∀ {l : List α}, l.Pairwise R → ∀ pq ∈ allPairsLt l, R pq.1 pq.2
  | [], _, pq, hpq => by simp [allPairsLt] at hpq
  | x :: t, hp, pq, hpq => by
    rcases List.pairwise_cons.mp hp with ⟨hx, ht⟩
    rw [allPairsLt] at hpq
    rcases List.mem_append.mp hpq with hmem | hmem
    · rcases List.mem_map.mp hmem with ⟨y, hy, rfl⟩
      exact hx y hy
    · exact allPairsLt_of_pairwise ht pq hmem

/-- The computation of Map::compute_transform under nondegeneracy: with
at least two matched fiducial pairs and no zero from-level distances,
the result is exactly the spec's arithmetic means, as finite values. -/
theorem estimateTransform_eq_means (fs0 fs1 : List Fiducial)
    (h2 : 2 ≤ (matchedFiducials fs0 fs1).length)
    (hd : ∀ p ∈ distancePairs (matchedFiducials fs0 fs1), p.1 ≠ 0) :
    estimateTransform fs0 fs1 =
      { scale := fin (specScale (matchedFiducials fs0 fs1))
        dx := fin (specDx (specScale (matchedFiducials fs0 fs1)) (matchedFiducials fs0 fs1))
        dy := fin (specDy (specScale (matchedFiducials fs0 fs1)) (matchedFiducials fs0 fs1)) } := by
  set M := matchedFiducials fs0 fs1 with hM
  have hlenpos : 0 < (allPairsLt M).length := allPairsLt_length_pos M h2
  have hdlen : (distancePairs M).length = (allPairsLt M).length := by
    rw [distancePairs_eq]; simp
  have hsum : (distancePairs M).foldl
      (fun acc d => dadd acc (ddiv (fin d.2) (fin d.1))) (fin 0) =
      fin (((distancePairs M).map (fun d => d.2 / d.1)).sum) := by
    rw [foldl_dadd_some (fun d => ddiv (fin d.2) (fin d.1)) (fun d => d.2 / d.1)
      (distancePairs M) 0 (fun d hdm => ddiv_fin (hd d hdm))]
    rw [zero_add]
  have hratio : ((distancePairs M).map (fun d => d.2 / d.1)).sum =
      ((allPairsLt M).map (fun pq => fdist pq.1.2 pq.2.2 / fdist pq.1.1 pq.2.1)).sum := by
    rw [distancePairs_eq, List.map_map]
    rfl
  have hscale : ddiv (fin (((distancePairs M).map (fun d => d.2 / d.1)).sum))
      (fin ((distancePairs M).length : ℚ)) = fin (specScale M) := by
    rw [ddiv_fin (by exact_mod_cast (by omega : (distancePairs M).length ≠ 0))]
    rw [specScale, hratio, hdlen]
  have hMpos : M.length ≠ 0 := by omega
  have htx : M.foldl
      (fun acc f => dadd acc (dsub (fin f.2.x) (dmul (fin f.1.x) (fin (specScale M))))) (fin 0) =
      fin ((M.map (fun f => f.2.x - f.1.x * specScale M)).sum) := by
    rw [foldl_dadd_some
      (fun f => dsub (fin f.2.x) (dmul (fin f.1.x) (fin (specScale M))))
      (fun f => f.2.x - f.1.x * specScale M) M 0 (fun f _ => by simp [dsub, dmul, fin])]
    rw [zero_add]
  have hty : M.foldl
      (fun acc f => dadd acc (dsub (fin f.2.y) (dmul (fin f.1.y) (fin (specScale M))))) (fin 0) =
      fin ((M.map (fun f => f.2.y - f.1.y * specScale M)).sum) := by
    rw [foldl_dadd_some
      (fun f => dsub (fin f.2.y) (dmul (fin f.1.y) (fin (specScale M))))
      (fun f => f.2.y - f.1.y * specScale M) M 0 (fun f _ => by simp [dsub, dmul, fin])]
    rw [zero_add]
  show estimateTransform fs0 fs1 = _
  rw [estimateTransform]
  simp only [← hM, hsum, hscale]
  rw [htx, hty]
  have e1 : (M.map (fun f => f.2.x - f.1.x * specScale M)) =
      (M.map (fun p => p.2.x - specScale M * p.1.x)) :=
    List.map_congr_left (fun a _ => by ring)
  have e2 : (M.map (fun f => f.2.y - f.1.y * specScale M)) =
      (M.map (fun p => p.2.y - specScale M * p.1.y)) :=
    List.map_congr_left (fun a _ => by ring)
  rw [e1, e2, ddiv_fin (by exact_mod_cast hMpos), ddiv_fin (by exact_mod_cast hMpos)]
  rw [specDx, specDy]

end TrafficEditor

namespace TrafficEditor

theorem sum_map_one {α : Type} (l : List α) : (l.map (fun _ => (1:ℚ))).sum = l.length := by
  induction l with
  | nil => simp
  | cons a t ih => simp [ih]; ring

theorem firstMatch_self {fs : List Fiducial} (hn : (fs.map Fiducial.name).Nodup) :
    ∀ f ∈ fs, firstMatch f fs = some f := by
  have main : ∀ (pre fs' : List Fiducial), (fs'.map Fiducial.name).Nodup →
      ∀ f ∈ fs', firstMatch f fs' = some f := by
    intro _pre fs'
    induction fs' with
    | nil => intro _ f hf; simp at hf
    | cons g t ih =>
      intro hnd f hf
      rcases List.mem_cons.mp hf with rfl | hft
      · rw [firstMatch, if_pos (by simp)]
      · have hgname : g.name ∉ t.map Fiducial.name := (List.nodup_cons.mp (by simpa using hnd)).1
        have hne : ¬ f.name == g.name := by
          simp only [beq_iff_eq]
          intro heq
          exact hgname (heq ▸ List.mem_map_of_mem Fiducial.name hft)
        rw [firstMatch, if_neg (by simpa using hne)]
        exact ih (List.nodup_cons.mp (by simpa using hnd)).2 f hft
  exact main [] fs hn

theorem matchedFiducials_self_aux (fs1 : List Fiducial) :
    ∀ fs0, (∀ f ∈ fs0, firstMatch f fs1 = some f) →
      matchedFiducials fs0 fs1 = fs0.map (fun f => (f, f))
  | [], _ => rfl
  | f :: t, hall => by
    rw [matchedFiducials, hall f (by simp)]
    simp only [List.map_cons]
    rw [matchedFiducials_self_aux fs1 t (fun x hx => hall x (by simp [hx]))]

/-- Aligning a level with itself: with at least two fiducials, no
duplicate names and no duplicate positions, the estimator returns the
identity transform (scale 1, zero translation). -/
theorem estimateTransform_self (fs : List Fiducial)
    (hn : (fs.map Fiducial.name).Nodup) (h2 : 2 ≤ fs.length)
    (hp : fs.Pairwise (fun a b => (a.x, a.y) ≠ (b.x, b.y))) :
    estimateTransform fs fs = { scale := fin 1, dx := fin 0, dy := fin 0 } := by
  have hmatch : matchedFiducials fs fs = fs.map (fun f => (f, f)) :=
    matchedFiducials_self_aux fs fs (firstMatch_self hn)
  have hdists : distancePairs (matchedFiducials fs fs) =
      (allPairsLt fs).map (fun pq => (fdist pq.1 pq.2, fdist pq.1 pq.2)) := by
    rw [hmatch, distancePairs_eq, allPairsLt_map]
    simp [List.map_map]
  have hdpos : ∀ pq ∈ allPairsLt fs, (0:ℚ) < fdist pq.1 pq.2 := by
    intro pq hpq
    exact fdist_pos (allPairsLt_of_pairwise hp pq hpq)
  have hlen2 : 2 ≤ (matchedFiducials fs fs).length := by
    rw [hmatch]; simpa using h2
  have hplen : 0 < (allPairsLt fs).length := allPairsLt_length_pos fs h2
  -- relative scale sum: each ratio is 1
  have hsum : (distancePairs (matchedFiducials fs fs)).foldl
      (fun acc d => dadd acc (ddiv (fin d.2) (fin d.1))) (fin 0) =
      fin ((allPairsLt fs).length : ℚ) := by
    rw [hdists]
    rw [foldl_dadd_some (fun (d : ℚ × ℚ) => ddiv (fin d.2) (fin d.1))
      (fun (_ : ℚ × ℚ) => (1:ℚ)) _ 0 ?hg]
    case hg =>
      intro d hd
      rcases List.mem_map.mp hd with ⟨pq, hpq, rfl⟩
      have hdp := hdpos pq hpq
      show ddiv (fin (fdist pq.1 pq.2)) (fin (fdist pq.1 pq.2)) = fin 1
      rw [ddiv_fin (ne_of_gt hdp), div_self (ne_of_gt hdp)]
    refine congrArg fin ?_
    rw [zero_add, sum_map_one]
    simp
  have hscale : ddiv (fin ((allPairsLt fs).length : ℚ))
      (fin ((distancePairs (matchedFiducials fs fs)).length : ℚ)) = fin 1 := by
    have hdlen : (distancePairs (matchedFiducials fs fs)).length = (allPairsLt fs).length := by
      rw [hdists]; simp
    have hne : ((allPairsLt fs).length : ℚ) ≠ 0 := by
      exact_mod_cast (by omega : (allPairsLt fs).length ≠ 0)
    rw [hdlen, ddiv_fin hne, div_self hne]
  have hmlen : ((matchedFiducials fs fs).length : ℚ) ≠ 0 := by
    exact_mod_cast (by omega : (matchedFiducials fs fs).length ≠ 0)
  have htx : (matchedFiducials fs fs).foldl
      (fun acc f => dadd acc (dsub (fin f.2.x) (dmul (fin f.1.x) (fin 1)))) (fin 0) = fin 0 := by
    rw [foldl_dadd_some (fun (f : Fiducial × Fiducial) => dsub (fin f.2.x) (dmul (fin f.1.x) (fin 1)))
      (fun (_ : Fiducial × Fiducial) => (0:ℚ)) _ 0 ?hgx]
    case hgx =>
      intro f hf
      rw [hmatch] at hf
      rcases List.mem_map.mp hf with ⟨a, _, rfl⟩
      show dsub (fin a.x) (dmul (fin a.x) (fin 1)) = fin 0
      simp [dsub, dmul, fin]
    refine congrArg fin ?_
    induction matchedFiducials fs fs with
    | nil => simp
    | cons p t ih => simp
  have hty : (matchedFiducials fs fs).foldl
      (fun acc f => dadd acc (dsub (fin f.2.y) (dmul (fin f.1.y) (fin 1)))) (fin 0) = fin 0 := by
    rw [foldl_dadd_some (fun (f : Fiducial × Fiducial) => dsub (fin f.2.y) (dmul (fin f.1.y) (fin 1)))
      (fun (_ : Fiducial × Fiducial) => (0:ℚ)) _ 0 ?hgy]
    case hgy =>
      intro f hf
      rw [hmatch] at hf
      rcases List.mem_map.mp hf with ⟨a, _, rfl⟩
      show dsub (fin a.y) (dmul (fin a.y) (fin 1)) = fin 0
      simp [dsub, dmul, fin]
    refine congrArg fin ?_
    induction matchedFiducials fs fs with
    | nil => simp
    | cons p t ih => simp
  rw [estimateTransform]
  simp only [hsum, hscale, htx, hty]
  rw [ddiv_fin hmlen]
  simp [zero_div]

end TrafficEditor

namespace TrafficEditor



theorem isqrtGo_sq (n : ℕ) : ∀ (fuel r : ℕ), r ≤ n → n - r ≤ fuel → isqrtGo (n * n) r fuel = n := by
  intro fuel
  induction fuel with
  | zero =>
    intro r h1 h2
    have : r = n := by omega
    rw [this, isqrtGo]
  | succ f ih =>
    intro r h1 h2
    by_cases hr : r = n
    · subst hr
      rw [isqrtGo, if_neg (by nlinarith)]
    · have hrn : r < n := lt_of_le_of_ne h1 hr
      rw [isqrtGo, if_pos (by nlinarith)]
      exact ih (r + 1) (by omega) (by omega)

theorem isqrt_sq (n : ℕ) : isqrt (n * n) = n := by
  have h1 : n ≤ n * n := by
    rcases Nat.eq_zero_or_pos n with h | h
    · omega
    · calc n = n * 1 := (mul_one n).symm
        _ ≤ n * n := Nat.mul_le_mul_left n h
  rw [isqrt]
  exact isqrtGo_sq n (n * n) 0 (by omega) (by omega)

/-- Evaluation rule for the sqrt model: on a positive rational that is
the square of a non-negative rational, sqrtQ returns exactly that
square root. -/
theorem sqrtQ_eval {q r : ℚ} (hq : 0 < q) (hr : 0 ≤ r) (h : r * r = q) : sqrtQ q = r := by
  subst h
  have hnatAbs : (r * r).num.natAbs = r.num.natAbs * r.num.natAbs := by
    rw [Rat.mul_self_num r, Int.natAbs_mul]
  have hden : (r * r).den = r.den * r.den := Rat.mul_self_den r
  rw [sqrtQ, if_neg (not_le.mpr hq)]
  rw [if_pos (by rw [hnatAbs, hden, isqrt_sq, isqrt_sq]; exact ⟨rfl, rfl⟩)]
  rw [hnatAbs, hden, isqrt_sq, isqrt_sq]
  have hrnum : (0:ℤ) ≤ r.num := Rat.num_nonneg.mpr hr
  have h2 : (r.num.natAbs : ℚ) = (r.num : ℚ) := by
    rw [Int.cast_natAbs, abs_of_nonneg hrnum]
  rw [h2]
  exact Rat.num_div_den r



/-! Concrete inputs used by witnesses and counterexamples. -/

def c1from : Level := ⟨"A", fin (1/20), [], [⟨"p", 0, 0⟩, ⟨"q", 10, 0⟩], [], []⟩
def c1to : Level := ⟨"B", fin (1/20), [], [⟨"p", 1, 2⟩, ⟨"q", 21, 2⟩], [], []⟩
def c2from : Level := ⟨"A", fin (1/20), [], [⟨"p", 0, 0⟩, ⟨"q", 5, 5⟩], [], []⟩
def c2to : Level := ⟨"B", fin (1/20), [], [⟨"p", 1, 1⟩, ⟨"r", 9, 9⟩], [], []⟩
def claim3_cx_map : Map := ⟨"building", "", [⟨"L0", fin (1/20), [], [], [], []⟩], [], []⟩
def claim3_w_map : Map :=
  ⟨"building", "", [⟨"L0", fin (1/20), [], [⟨"a", 0, 0⟩, ⟨"b", 3, 4⟩], [], []⟩], [], []⟩

/-- C1: for every pair of levels, Map::compute_transform first collects
the name-matched fiducial pairs (first match in the to-level, in
from-level order), then returns the arithmetic mean of d_to / d_from
over all unordered pairs as the scale and the per-axis arithmetic means
of to - scale * from as the translation.  Stated for every pair of
levels whose matched set has at least two pairs and no coincident
from-level fiducials, so that the means are defined (finite). -/
theorem claim1_compute_transform_follows_spec (from_level to_level : Level)
    (h2 : 2 ≤ (matchedFiducials from_level.fiducials to_level.fiducials).length)
    (hd : ∀ p ∈ distancePairs (matchedFiducials from_level.fiducials to_level.fiducials),
      p.1 ≠ 0) :
    matchedFiducials from_level.fiducials to_level.fiducials =
      specMatches from_level.fiducials to_level.fiducials ∧
    estimateTransform from_level.fiducials to_level.fiducials =
      { scale := fin (specScale (specMatches from_level.fiducials to_level.fiducials))
        dx := fin (specDx (specScale (specMatches from_level.fiducials to_level.fiducials))
          (specMatches from_level.fiducials to_level.fiducials))
        dy := fin (specDy (specScale (specMatches from_level.fiducials to_level.fiducials))
          (specMatches from_level.fiducials to_level.fiducials)) } := by
  refine ⟨matchedFiducials_eq_spec _ _, ?_⟩
  rw [← matchedFiducials_eq_spec]
  exact estimateTransform_eq_means _ _ h2 hd

/-- Witness for C1 at a concrete pair of levels related by scale 2 and
translation (1, 2). -/
theorem claim1_witness :
    (2 ≤ (matchedFiducials c1from.fiducials c1to.fiducials).length) ∧
    (∀ p ∈ distancePairs (matchedFiducials c1from.fiducials c1to.fiducials), p.1 ≠ 0) ∧
    (matchedFiducials c1from.fiducials c1to.fiducials =
       specMatches c1from.fiducials c1to.fiducials ∧
     estimateTransform c1from.fiducials c1to.fiducials =
       { scale := fin (specScale (specMatches c1from.fiducials c1to.fiducials))
         dx := fin (specDx (specScale (specMatches c1from.fiducials c1to.fiducials))
           (specMatches c1from.fiducials c1to.fiducials))
         dy := fin (specDy (specScale (specMatches c1from.fiducials c1to.fiducials))
           (specMatches c1from.fiducials c1to.fiducials)) }) :=
by
  have hm : matchedFiducials c1from.fiducials c1to.fiducials =
      [(⟨"p", 0, 0⟩, ⟨"p", 1, 2⟩), (⟨"q", 10, 0⟩, ⟨"q", 21, 2⟩)] := by
    simp +decide [c1from, c1to, matchedFiducials, firstMatch]
  have hda : fdist ⟨"p", (0:ℚ), 0⟩ ⟨"q", 10, 0⟩ = 10 := by
    rw [fdist]; exact sqrtQ_eval (by norm_num) (by norm_num) (by norm_num)
  have h2 : 2 ≤ (matchedFiducials c1from.fiducials c1to.fiducials).length := by
    rw [hm]; decide
  have hd : ∀ p ∈ distancePairs (matchedFiducials c1from.fiducials c1to.fiducials),
      p.1 ≠ 0 := by
    rw [hm]
    simp [distancePairs, hda]
  exact ⟨h2, hd, claim1_compute_transform_follows_spec c1from c1to h2 hd⟩

/-- C2 counterexample: two levels sharing exactly one fiducial name.
The estimator does not fail with any error: it returns a transform, and
that transform is entirely non-finite (NaN/Inf), contradicting the
claim that estimation fails with InsufficientFiducials and never
returns NaN or Inf. -/
theorem claim2_counterexample :
    (matchedFiducials c2from.fiducials c2to.fiducials).length = 1 ∧
    estimateTransform c2from.fiducials c2to.fiducials =
      { scale := none, dx := none, dy := none } := by
  constructor
  · simp +decide [c2from, c2to, matchedFiducials, firstMatch]
  · have hm : matchedFiducials c2from.fiducials c2to.fiducials =
        [(⟨"p", 0, 0⟩, ⟨"p", 1, 1⟩)] := by
      simp +decide [c2from, c2to, matchedFiducials, firstMatch]
    rw [estimateTransform, hm]
    simp [distancePairs, ddiv, dadd, dsub, dmul, fin]

/-- C2 as amended: with fewer than two matched fiducial pairs,
Map::compute_transform does not signal any error; it divides by the
zero pair count and returns a transform whose scale and translation are
all non-finite (NaN/Inf). -/
theorem claim2_amended_nonfinite (from_level to_level : Level)
    (h : (matchedFiducials from_level.fiducials to_level.fiducials).length < 2) :
    estimateTransform from_level.fiducials to_level.fiducials =
      { scale := none, dx := none, dy := none } := by
  rcases hm : matchedFiducials from_level.fiducials to_level.fiducials with _ | ⟨p, t2⟩
  · rw [estimateTransform, hm]
    simp [distancePairs, ddiv, dadd, fin]
  · rcases t2 with _ | ⟨q, t⟩
    · rw [estimateTransform, hm]
      simp [distancePairs, ddiv, dadd, dsub, dmul, fin]
    · rw [hm] at h
      exact absurd h (by simp)

/-- Witness for the amended C2 at the concrete one-shared-name pair. -/
theorem claim2_amended_witness :
    ((matchedFiducials c2from.fiducials c2to.fiducials).length < 2) ∧
    estimateTransform c2from.fiducials c2to.fiducials =
      { scale := none, dx := none, dy := none } :=
  ⟨by simp +decide [c2from, c2to, matchedFiducials, firstMatch],
   claim2_amended_nonfinite c2from c2to
     (by simp +decide [c2from, c2to, matchedFiducials, firstMatch])⟩

/-- C3 counterexample: a level with zero fiducials, in range, empty
cache.  get_transform(0, 0) is not the identity: every component is
non-finite (0/0), contradicting scale = 1, dx = dy = 0. -/
theorem claim3_counterexample :
    claim3_cx_map.levels.length = 1 ∧
    (claim3_cx_map.levels.getD 0 defLevel).fiducials = [] ∧
    (claim3_cx_map.get_transform 0 0).1 = { scale := none, dx := none, dy := none } := by
  refine ⟨rfl, rfl, ?_⟩
  simp [Map.get_transform, lookupTransform, claim3_cx_map, Map.compute_transform,
    estimateTransform, matchedFiducials, distancePairs, ddiv, dadd, fin]

/-- C3 as amended: get_transform(i, i) yields the identity transform
(scale 1, zero translation) for an in-range level with no cached (i, i)
entry whose fiducials number at least two and have pairwise distinct
names and pairwise distinct positions; with fewer than two fiducials the
result is non-finite instead (see the counterexample). -/
theorem claim3_amended_self_identity (m : Map) (i : ℤ) (h0 : 0 ≤ i)
    (hi : i.toNat < m.levels.length)
    (hc : lookupTransform m.transforms (i, i) = none)
    (hn : ((m.levels.getD i.toNat defLevel).fiducials.map Fiducial.name).Nodup)
    (h2 : 2 ≤ (m.levels.getD i.toNat defLevel).fiducials.length)
    (hp : (m.levels.getD i.toNat defLevel).fiducials.Pairwise
      (fun a b => (a.x, a.y) ≠ (b.x, b.y))) :
    (m.get_transform i i).1 = { scale := fin 1, dx := fin 0, dy := fin 0 } := by
  simp only [Map.get_transform, hc, Map.compute_transform]
  exact estimateTransform_self _ hn h2 hp

/-- Witness for the amended C3 at a concrete one-level map with two
distinct fiducials at distance 5. -/
theorem claim3_amended_witness :
    ((0:ℤ) ≤ 0 ∧ (0:ℤ).toNat < claim3_w_map.levels.length ∧
     lookupTransform claim3_w_map.transforms (0, 0) = none ∧
     ((claim3_w_map.levels.getD (0:ℤ).toNat defLevel).fiducials.map Fiducial.name).Nodup ∧
     2 ≤ (claim3_w_map.levels.getD (0:ℤ).toNat defLevel).fiducials.length ∧
     (claim3_w_map.levels.getD (0:ℤ).toNat defLevel).fiducials.Pairwise
       (fun a b => (a.x, a.y) ≠ (b.x, b.y))) ∧
    (claim3_w_map.get_transform 0 0).1 = { scale := fin 1, dx := fin 0, dy := fin 0 } :=
  ⟨⟨le_refl 0,
    by simp [claim3_w_map],
    by simp [claim3_w_map, lookupTransform],
    by simp +decide [claim3_w_map],
    by simp [claim3_w_map],
    by simp [claim3_w_map, List.pairwise_cons]⟩,
   claim3_amended_self_identity claim3_w_map 0 (le_refl 0)
     (by simp [claim3_w_map])
     (by simp [claim3_w_map, lookupTransform])
     (by simp +decide [claim3_w_map])
     (by simp [claim3_w_map])
     (by simp [claim3_w_map, List.pairwise_cons])⟩

end TrafficEditor

namespace TrafficEditor

theorem get_transform_snd (m : Map) (i j : ℤ) :
    (m.get_transform i j).2.building_name = m.building_name ∧
    (m.get_transform i j).2.reference_level_name = m.reference_level_name ∧
    (m.get_transform i j).2.levels = m.levels ∧
    (m.get_transform i j).2.lifts = m.lifts := by
  rw [Map.get_transform]
  cases h : lookupTransform m.transforms (i, j) with
  | none => exact ⟨rfl, rfl, rfl, rfl⟩
  | some t => exact ⟨rfl, rfl, rfl, rfl⟩

theorem populateTransforms_cons (m : Map) (p : ℤ × ℤ) (t : List (ℤ × ℤ)) :
    populateTransforms m (p :: t) = populateTransforms (m.get_transform p.1 p.2).2 t := rfl

theorem populateTransforms_snd :
    ∀ (ps : List (ℤ × ℤ)) (m : Map),
      (populateTransforms m ps).building_name = m.building_name ∧
      (populateTransforms m ps).reference_level_name = m.reference_level_name ∧
      (populateTransforms m ps).levels = m.levels ∧
      (populateTransforms m ps).lifts = m.lifts
  | [], m => ⟨rfl, rfl, rfl, rfl⟩
  | p :: t, m => by
    have hstep := get_transform_snd m p.1 p.2
    have hrest := populateTransforms_snd t (m.get_transform p.1 p.2).2
    rw [populateTransforms_cons]
    exact ⟨hrest.1.trans hstep.1, hrest.2.1.trans hstep.2.1,
      hrest.2.2.1.trans hstep.2.2.1, hrest.2.2.2.trans hstep.2.2.2⟩

theorem setDmpp_frame (m : Map) (k : ℕ) (v : Dbl) :
    (setDmpp m k v).building_name = m.building_name ∧
    (setDmpp m k v).reference_level_name = m.reference_level_name ∧
    (setDmpp m k v).lifts = m.lifts ∧
    (setDmpp m k v).transforms = m.transforms :=
  ⟨rfl, rfl, rfl, rfl⟩

theorem scaleLoop_lifts (R : ℤ) (rs : Dbl) :
    ∀ (js : List ℤ) (m : Map), (scaleLoop R rs m js).lifts = m.lifts
  | [], m => rfl
  | i :: t, m => by
    rw [scaleLoop]
    by_cases h : i ≠ m.get_reference_level_idx
    · rw [if_pos h, scaleLoop_lifts R rs t]
      exact (get_transform_snd m R i).2.2.2
    · rw [if_neg h, scaleLoop_lifts R rs t]

theorem scaleLoop_building (R : ℤ) (rs : Dbl) :
    ∀ (js : List ℤ) (m : Map), (scaleLoop R rs m js).building_name = m.building_name
  | [], m => rfl
  | i :: t, m => by
    rw [scaleLoop]
    by_cases h : i ≠ m.get_reference_level_idx
    · rw [if_pos h, scaleLoop_building R rs t]
      exact (get_transform_snd m R i).1
    · rw [if_neg h, scaleLoop_building R rs t]

theorem calculate_all_transforms_lifts (m : Map) :
    m.calculate_all_transforms.lifts = m.lifts := by
  rw [Map.calculate_all_transforms, scaleLoop_lifts, populateAll]
  exact (populateTransforms_snd _ _).2.2.2

end TrafficEditor

namespace TrafficEditor

/-! ## Concrete inputs for the bounds-safety and load claims -/

/-- A map with one level that has no entities, used at index 1 (= the
level count, out of range). -/
def oneEmptyLevelMap : Map := ⟨"building", "", [⟨"L0", fin (1/20), [], [], [], []⟩], [], []⟩

/-- A concrete instantiation of the missing Level::from_yaml. -/
def loadLevelStub : String → Yaml → Level := fun n _ => { defLevel with name := n }

/-- A concrete instantiation of the missing Lift::from_yaml. -/
def loadLiftStub : String → Yaml → Lift := fun n _ => ⟨n, ""⟩

/-- A pre-existing map state with prior contents in every field. -/
def preMap : Map :=
  ⟨"old", "oldref", [⟨"OldL", fin (1/20), [], [], [], []⟩], [⟨"oldlift", "OldL"⟩], []⟩

/-- A document with a building name but no levels mapping. -/
def noLevelsDoc : Yaml := Yaml.map [("building_name", Yaml.scalar "new")]

/-- A well-formed document with one level and one lift. -/
def liftsDoc : Yaml :=
  Yaml.map [("levels", Yaml.map [("a", Yaml.scalar "x")]),
    ("lifts", Yaml.map [("lift2", Yaml.scalar "y")])]

/-- C10: Map::clear sets the building name to the empty string and
empties the level list, and leaves both the lift list and the transform
cache exactly unchanged. -/
theorem claim10_clear_frame (m : Map) :
    m.clear.building_name = "" ∧ m.clear.levels = [] ∧
    m.clear.lifts = m.lifts ∧ m.clear.transforms = m.transforms :=
  ⟨rfl, rfl, rfl, rfl⟩

/-- C6, evaluated at the failing input: with one level, every mutation
called at level index 1 (equal to the level count, hence out of range)
is a state-preserving no-op without an out-of-range access — except
Map::remove_polygon_vertex, whose bounds check uses a strict comparison
(`level_idx > levels.size()`), lets index 1 through, and dereferences
the level vector out of range (no defined result, `none`), for every
possible behaviour of the missing Level-side operation. -/
theorem claim6_out_of_range_mutations (del : Level → Level × Bool)
    (rm : ℤ → ℤ → Level → Level) (p v : ℤ) :
    ((oneEmptyLevelMap.levels.length : ℤ) ≤ 1) ∧
    oneEmptyLevelMap.add_vertex 1 2 3 = some oneEmptyLevelMap ∧
    oneEmptyLevelMap.add_fiducial 1 2 3 = some oneEmptyLevelMap ∧
    oneEmptyLevelMap.add_edge 1 0 1 0 = some oneEmptyLevelMap ∧
    oneEmptyLevelMap.add_model 1 2 3 0 "m1" = some oneEmptyLevelMap ∧
    oneEmptyLevelMap.set_model_yaw 1 0 0 = some oneEmptyLevelMap ∧
    oneEmptyLevelMap.delete_selected del 1 = some (oneEmptyLevelMap, false) ∧
    oneEmptyLevelMap.remove_polygon_vertex rm 1 p v = none := by
  refine ⟨by simp [oneEmptyLevelMap], ?_, ?_, ?_, ?_, ?_, ?_, ?_⟩
  · simp [Map.add_vertex, oneEmptyLevelMap]
  · simp [Map.add_fiducial, oneEmptyLevelMap]
  · simp [Map.add_edge, oneEmptyLevelMap]
  · simp [Map.add_model, oneEmptyLevelMap]
  · simp [Map.set_model_yaw, oneEmptyLevelMap]
  · simp [Map.delete_selected, oneEmptyLevelMap]
  · simp [Map.remove_polygon_vertex, oneEmptyLevelMap, zget]

/-- C9, evaluated at the failing input: at level index 1 = the level
count, Map::nearest_items returns its default (all sentinels) and
Map::nearest_item_index_if_within_distance returns -1, but
Map::find_nearest_vertex_index has no bounds check at all and
dereferences the level vector out of range (no defined result,
`none`). -/
theorem claim9_out_of_range_queries :
    ((oneEmptyLevelMap.levels.length : ℤ) ≤ 1) ∧
    oneEmptyLevelMap.nearest_items 1 0 0 = some {} ∧
    oneEmptyLevelMap.nearest_item_index_if_within_distance 1 0 0 10 ItemType.VERTEX
      = some (-1) ∧
    oneEmptyLevelMap.find_nearest_vertex_index 1 0 0 = none := by
  refine ⟨by simp [oneEmptyLevelMap], ?_, ?_, ?_⟩
  · simp [Map.nearest_items, oneEmptyLevelMap]
  · simp [Map.nearest_item_index_if_within_distance, oneEmptyLevelMap]
  · simp [Map.find_nearest_vertex_index, oneEmptyLevelMap, zget]

/-- C4 counterexample: loading a document that lacks a 'levels' mapping
but provides a building name raises the missing-required-section error,
yet the pre-existing map's building_name has already been overwritten
("old" became "new"), so the map is not left unmodified. -/
theorem claim4_counterexample :
    (preMap.load_yaml loadLevelStub loadLiftStub noLevelsDoc).2 =
      some "expected top-level dictionary named 'levels'" ∧
    (preMap.load_yaml loadLevelStub loadLiftStub noLevelsDoc).1.building_name = "new" ∧
    preMap.building_name = "old" := by
  refine ⟨?_, ?_, rfl⟩ <;>
    simp +decide [Map.load_yaml, ylookup, strField, List.find?, preMap, noLevelsDoc]

/-- C4 as amended: loading a document without a 'levels' mapping (and
whose optional name fields are absent or scalar) raises the
missing-required-section error and leaves the levels and lifts of the
pre-existing map unmodified; building_name and reference_level_name,
however, are overwritten first when the document provides them (see the
counterexample). -/
theorem claim4_amended_failed_load (lvlP : String → Yaml → Level)
    (liftP : String → Yaml → Lift) (m : Map) (y : Yaml)
    (hb : ∀ e, strField (ylookup y "building_name") ≠ Except.error e)
    (hr : ∀ e, strField (ylookup y "reference_level_name") ≠ Except.error e)
    (hlv : ∀ kvs, ylookup y "levels" ≠ some (Yaml.map kvs)) :
    (m.load_yaml lvlP liftP y).2 = some "expected top-level dictionary named 'levels'" ∧
    (m.load_yaml lvlP liftP y).1.levels = m.levels ∧
    (m.load_yaml lvlP liftP y).1.lifts = m.lifts := by
  cases hbv : strField (ylookup y "building_name") with
  | error e => exact absurd hbv (hb e)
  | ok ob =>
    cases hrv : strField (ylookup y "reference_level_name") with
    | error e => exact absurd hrv (hr e)
    | ok orf =>
      cases hlvv : ylookup y "levels" with
      | none => cases ob <;> cases orf <;> simp [Map.load_yaml, hbv, hrv, hlvv]
      | some v =>
        cases v with
        | map kvs => exact absurd hlvv (hlv kvs)
        | scalar s => cases ob <;> cases orf <;> simp [Map.load_yaml, hbv, hrv, hlvv]
        | seq xs => cases ob <;> cases orf <;> simp [Map.load_yaml, hbv, hrv, hlvv]

/-- Witness for the amended C4 at the concrete pre-existing map and the
concrete levels-free document. -/
theorem claim4_amended_witness :
    ((∀ e, strField (ylookup noLevelsDoc "building_name") ≠ Except.error e) ∧
     (∀ e, strField (ylookup noLevelsDoc "reference_level_name") ≠ Except.error e) ∧
     (∀ kvs, ylookup noLevelsDoc "levels" ≠ some (Yaml.map kvs))) ∧
    (preMap.load_yaml loadLevelStub loadLiftStub noLevelsDoc).2 =
      some "expected top-level dictionary named 'levels'" ∧
    (preMap.load_yaml loadLevelStub loadLiftStub noLevelsDoc).1.levels = preMap.levels ∧
    (preMap.load_yaml loadLevelStub loadLiftStub noLevelsDoc).1.lifts = preMap.lifts :=
  ⟨⟨by simp +decide [ylookup, strField, List.find?, noLevelsDoc],
    by simp +decide [ylookup, strField, List.find?, noLevelsDoc],
    by simp +decide [ylookup, List.find?, noLevelsDoc]⟩,
   claim4_amended_failed_load loadLevelStub loadLiftStub preMap noLevelsDoc
     (by simp +decide [ylookup, strField, List.find?, noLevelsDoc])
     (by simp +decide [ylookup, strField, List.find?, noLevelsDoc])
     (by simp +decide [ylookup, List.find?, noLevelsDoc])⟩

/-- C8, evaluated at the failing input: a successful load (error-free,
with a levels mapping) does not clear the pre-existing lift list —
Map::load_yaml only appends the document's lifts to it, so every
pre-load lift survives, for every possible behaviour of the missing
Level::from_yaml and Lift::from_yaml.  This contradicts the source's
own doc comment, "This function replaces the contents of this object
with what is in the YAML file." -/
theorem claim8_lifts_survive_load :
    (preMap.load_yaml loadLevelStub loadLiftStub liftsDoc).2 = none ∧
    (preMap.load_yaml loadLevelStub loadLiftStub liftsDoc).1.lifts =
      preMap.lifts ++ [loadLiftStub "lift2" (Yaml.scalar "y")] ∧
    preMap.lifts = [⟨"oldlift", "OldL"⟩] := by
  have hload : preMap.load_yaml loadLevelStub loadLiftStub liftsDoc =
      ((⟨"old", "oldref", [loadLevelStub "a" (Yaml.scalar "x")],
        preMap.lifts ++ [loadLiftStub "lift2" (Yaml.scalar "y")],
        []⟩ : Map).calculate_all_transforms,
       none) := by
    simp +decide [Map.load_yaml, ylookup, strField, List.find?, preMap, liftsDoc]
  rw [hload]
  exact ⟨rfl, calculate_all_transforms_lifts _, rfl⟩

end TrafficEditor

namespace TrafficEditor

/-- The fiducials of level i of a map, totalised like the source's
unchecked accesses. -/
def fidsAt (m : Map) (i : ℤ) : List Fiducial :=
  (m.levels.getD i.toNat defLevel).fiducials

/-- Cache coherence: every memoized transform equals the estimator
applied to the current fiducials of its key's levels.  The fiducial
lists determine the estimate, so updating drawing scales preserves
this. -/
def CacheOK (m : Map) : Prop :=
  ∀ p t, lookupTransform m.transforms p = some t →
    t = estimateTransform (fidsAt m p.1) (fidsAt m p.2)

theorem lookupTransform_cons (e : (ℤ × ℤ) × Transform) (ts : List ((ℤ × ℤ) × Transform))
    (p : ℤ × ℤ) :
    lookupTransform (e :: ts) p = if e.1 = p then some e.2 else lookupTransform ts p := by
  by_cases h : e.1 = p
  · rw [lookupTransform, List.find?_cons_of_pos _ (by simp [h]), if_pos h]
    rfl
  · rw [lookupTransform, List.find?_cons_of_neg _ (by simp [h]), if_neg h]
    rfl

theorem cacheOK_empty (m : Map) (h : m.transforms = []) : CacheOK m := by
  intro p t hl
  rw [lookupTransform, h] at hl
  simp at hl

theorem get_transform_value (m : Map) (i j : ℤ) (h : CacheOK m) :
    (m.get_transform i j).1 = estimateTransform (fidsAt m i) (fidsAt m j) := by
  rw [Map.get_transform]
  cases hl : lookupTransform m.transforms (i, j) with
  | none => exact rfl
  | some t => exact h (i, j) t hl

theorem get_transform_cacheOK (m : Map) (i j : ℤ) (h : CacheOK m) :
    CacheOK (m.get_transform i j).2 := by
  rw [Map.get_transform]
  cases hl : lookupTransform m.transforms (i, j) with
  | none =>
    intro p t hp
    rw [lookupTransform_cons] at hp
    by_cases hij : ((i, j) : ℤ × ℤ) = p
    · rw [if_pos hij] at hp
      cases hp
      cases hij
      rfl
    · rw [if_neg hij] at hp
      exact h p t hp
  | some t => exact h

theorem populateTransforms_cacheOK :
    ∀ (ps : List (ℤ × ℤ)) (m : Map), CacheOK m → CacheOK (populateTransforms m ps)
  | [], m, h => h
  | p :: t, m, h => by
    rw [populateTransforms_cons]
    exact populateTransforms_cacheOK t _ (get_transform_cacheOK m p.1 p.2 h)


theorem map_modify {α β : Type} (g : α → β) (f : α → α) (hf : ∀ a, g (f a) = g a) :
    ∀ (l : List α) (k : ℕ), (l.modify f k).map g = l.map g
  | [], k => by cases k <;> rfl
  | a :: t, 0 => by simp [List.modify, hf]
  | a :: t, k+1 => by
    have hstep : (a :: t).modify f (k+1) = a :: t.modify f k := by simp [List.modify]
    rw [hstep, List.map_cons, List.map_cons, map_modify g f hf t k]

theorem fidsAt_setDmpp (m : Map) (n : ℕ) (v : Dbl) (i : ℤ) :
    fidsAt (setDmpp m n v) i = fidsAt m i := by
  rw [fidsAt, fidsAt, setDmpp]
  simp only [List.getD_eq_getElem?_getD, List.getElem?_modify]
  cases h : m.levels[i.toNat]? with
  | none => rfl
  | some lvl =>
    by_cases hn : n = i.toNat
    · simp [h, hn]
    · simp [h, hn]

theorem names_setDmpp (m : Map) (n : ℕ) (v : Dbl) :
    (setDmpp m n v).levels.map Level.name = m.levels.map Level.name := by
  simp only [setDmpp]
  exact map_modify Level.name
    (fun lvl => { lvl with drawing_meters_per_pixel := v }) (fun a => rfl) m.levels n

theorem length_setDmpp (m : Map) (n : ℕ) (v : Dbl) :
    (setDmpp m n v).levels.length = m.levels.length := by
  rw [setDmpp]
  simp [List.length_modify]

theorem cacheOK_setDmpp (m : Map) (n : ℕ) (v : Dbl) (h : CacheOK m) :
    CacheOK (setDmpp m n v) := by
  intro p t hp
  have he : lookupTransform (setDmpp m n v).transforms p = lookupTransform m.transforms p := rfl
  rw [he] at hp
  rw [fidsAt_setDmpp, fidsAt_setDmpp]
  exact h p t hp

theorem getD_setDmpp (m : Map) (n : ℕ) (v : Dbl) (k : ℕ) :
    ((setDmpp m n v).levels.getD k defLevel).drawing_meters_per_pixel =
      if n = k ∧ k < m.levels.length then v
      else ((m.levels.getD k defLevel)).drawing_meters_per_pixel := by
  rw [setDmpp]
  simp only [List.getD_eq_getElem?_getD, List.getElem?_modify]
  cases h : m.levels[k]? with
  | none =>
    have hk : ¬ k < m.levels.length := by
      intro hlt
      rw [List.getElem?_eq_none_iff] at h
      omega
    simp [h, hk]
  | some lvl =>
    have hk : k < m.levels.length := by
      by_contra hk
      rw [List.getElem?_eq_none_iff.mpr (by omega)] at h
      exact absurd h (by simp)
    by_cases hn : n = k
    · simp [h, hn, hk]
    · simp [h, hn]

theorem get_reference_level_idx_congr (m' m : Map)
    (h1 : m'.reference_level_name = m.reference_level_name)
    (h2 : m'.levels.map Level.name = m.levels.map Level.name) :
    m'.get_reference_level_idx = m.get_reference_level_idx := by
  rw [Map.get_reference_level_idx, Map.get_reference_level_idx, h1]
  by_cases h : m.reference_level_name = ""
  · simp [h]
  · rw [if_neg h, if_neg h]
    have e : ∀ (l : List Level) (r : String),
        l.findIdx? (fun lv => lv.name == r) = (l.map Level.name).findIdx? (fun s => s == r) := by
      intro l r
      rw [List.findIdx?_map]
      rfl
    rw [e, e, h2]


/-- The drawing scale of each level after the scale-normalization loop:
indices visited by the loop (other than the reference index, in range)
hold ref_scale / scale(ref → index); every other level keeps its
drawing scale. -/
theorem scaleLoop_dmpp (R : ℤ) (rs : Dbl) :
    ∀ (js : List ℤ) (m : Map), CacheOK m → m.get_reference_level_idx = R →
      (∀ i ∈ js, 0 ≤ i) → ∀ k : ℕ,
      ((scaleLoop R rs m js).levels.getD k defLevel).drawing_meters_per_pixel =
        if (k : ℤ) ∈ js ∧ (k : ℤ) ≠ R ∧ k < m.levels.length then
          ddiv rs (estimateTransform (fidsAt m R) (fidsAt m (k : ℤ))).scale
        else ((m.levels.getD k defLevel)).drawing_meters_per_pixel
  | [], m, _, _, _, k => by simp [scaleLoop]
  | i :: t, m, hC, hR, hpos, k => by
    have hi0 : 0 ≤ i := hpos i (by simp)
    rw [scaleLoop]
    by_cases hi : i ≠ m.get_reference_level_idx
    · rw [if_pos hi]
      have hiR : i ≠ R := by rw [← hR]; exact hi
      have h2levels : (m.get_transform R i).2.levels = m.levels :=
        (get_transform_snd m R i).2.2.1
      have hval : (m.get_transform R i).1 = estimateTransform (fidsAt m R) (fidsAt m i) :=
        get_transform_value m R i hC
      have hC' : CacheOK (setDmpp (m.get_transform R i).2 i.toNat
          (ddiv rs (m.get_transform R i).1.scale)) :=
        cacheOK_setDmpp _ _ _ (get_transform_cacheOK m R i hC)
      have hfids' : ∀ j : ℤ, fidsAt (setDmpp (m.get_transform R i).2 i.toNat
          (ddiv rs (m.get_transform R i).1.scale)) j = fidsAt m j := by
        intro j
        rw [fidsAt_setDmpp, fidsAt, fidsAt, h2levels]
      have hnames' : (setDmpp (m.get_transform R i).2 i.toNat
          (ddiv rs (m.get_transform R i).1.scale)).levels.map Level.name =
          m.levels.map Level.name := by
        rw [names_setDmpp, h2levels]
      have href' : (setDmpp (m.get_transform R i).2 i.toNat
          (ddiv rs (m.get_transform R i).1.scale)).reference_level_name =
          m.reference_level_name :=
        (get_transform_snd m R i).2.1
      have hR' : (setDmpp (m.get_transform R i).2 i.toNat
          (ddiv rs (m.get_transform R i).1.scale)).get_reference_level_idx = R := by
        rw [get_reference_level_idx_congr _ m href' hnames']
        exact hR
      have hlen' : (setDmpp (m.get_transform R i).2 i.toNat
          (ddiv rs (m.get_transform R i).1.scale)).levels.length = m.levels.length := by
        rw [length_setDmpp, h2levels]
      rw [scaleLoop_dmpp R rs t _ hC' hR' (fun x hx => hpos x (by simp [hx])) k]
      rw [hlen', hfids', hfids']
      by_cases hA : ((k : ℤ) ∈ t ∧ (k : ℤ) ≠ R ∧ k < m.levels.length)
      · rw [if_pos hA, if_pos ⟨by simp [hA.1], hA.2.1, hA.2.2⟩]
      · rw [if_neg hA]
        have hgd : ((setDmpp (m.get_transform R i).2 i.toNat
            (ddiv rs (m.get_transform R i).1.scale)).levels.getD k defLevel).drawing_meters_per_pixel =
            if i.toNat = k ∧ k < (m.get_transform R i).2.levels.length then
              ddiv rs (m.get_transform R i).1.scale
            else (((m.get_transform R i).2.levels.getD k defLevel)).drawing_meters_per_pixel :=
          getD_setDmpp _ _ _ k
        rw [hgd, h2levels]
        by_cases hB : i.toNat = k ∧ k < m.levels.length
        · have hki : (k : ℤ) = i := by omega
          rw [if_pos hB, if_pos ⟨by simp [hki], by rw [hki]; exact hiR, hB.2⟩, hval, hki]
        · rw [if_neg hB]
          have hcond : ¬ ((k : ℤ) ∈ i :: t ∧ (k : ℤ) ≠ R ∧ k < m.levels.length) := by
            intro ⟨hmem, hkR, hklen⟩
            rcases List.mem_cons.mp hmem with hki | hkt
            · exact hB ⟨by omega, hklen⟩
            · exact hA ⟨hkt, hkR, hklen⟩
          rw [if_neg hcond]
    · rw [if_neg hi]
      push_neg at hi
      have hiR : i = R := by rw [hi, hR]
      rw [scaleLoop_dmpp R rs t m hC hR (fun x hx => hpos x (by simp [hx])) k]
      by_cases hA : ((k : ℤ) ∈ t ∧ (k : ℤ) ≠ R ∧ k < m.levels.length)
      · rw [if_pos hA, if_pos ⟨by simp [hA.1], hA.2.1, hA.2.2⟩]
      · rw [if_neg hA]
        have hcond : ¬ ((k : ℤ) ∈ i :: t ∧ (k : ℤ) ≠ R ∧ k < m.levels.length) := by
          intro ⟨hmem, hkR, hklen⟩
          rcases List.mem_cons.mp hmem with hki | hkt
          · exact hkR (by rw [hki, hiR])
          · exact hA ⟨hkt, hkR, hklen⟩
        rw [if_neg hcond]


end TrafficEditor

namespace TrafficEditor

theorem populateAll_frame (m : Map) :
    (populateAll m).levels = m.levels ∧
    (populateAll m).reference_level_name = m.reference_level_name ∧
    CacheOK (populateAll m) :=
  ⟨(populateTransforms_snd _ _).2.2.1, (populateTransforms_snd _ _).2.1,
    populateTransforms_cacheOK _ _ (cacheOK_empty _ rfl)⟩

/-- C5: in a 3-level map whose reference level r has drawing scale
1/20 = 0.05 and where the computed transform from the reference to a
non-reference level i has scale exactly 2, calculate_all_transforms
rewrites level i's drawing scale to 1/40 = 0.025 (the reference scale
divided by the transform's scale) and leaves the reference level's
drawing scale unchanged. -/
theorem claim5_scale_normalization (m : Map) (r i : ℕ)
    (hlen : m.levels.length = 3)
    (hr : m.get_reference_level_idx = (r : ℤ))
    (hrlt : r < 3) (hilt : i < 3) (hir : i ≠ r)
    (href : ((m.levels.getD r defLevel)).drawing_meters_per_pixel = fin (1/20))
    (hsc : (estimateTransform (fidsAt m (r : ℤ)) (fidsAt m (i : ℤ))).scale = fin 2) :
    ((m.calculate_all_transforms.levels.getD i defLevel)).drawing_meters_per_pixel =
      fin (1/40) ∧
    ((m.calculate_all_transforms.levels.getD r defLevel)).drawing_meters_per_pixel =
      fin (1/20) := by
  obtain ⟨hm1levels, hm1ref, hm1C⟩ := populateAll_frame m
  have hm1names : (populateAll m).levels.map Level.name = m.levels.map Level.name := by
    rw [hm1levels]
  have hm1R : (populateAll m).get_reference_level_idx = (r : ℤ) := by
    rw [get_reference_level_idx_congr _ m hm1ref hm1names]
    exact hr
  have hfids : ∀ j : ℤ, fidsAt (populateAll m) j = fidsAt m j := by
    intro j
    rw [fidsAt, fidsAt, hm1levels]
  have hrs : (((populateAll m).levels.getD ((r : ℤ)).toNat defLevel)).drawing_meters_per_pixel =
      fin (1/20) := by
    rw [hm1levels]
    simpa using href
  rw [Map.calculate_all_transforms, hm1R, hrs]
  have hpos : ∀ x ∈ intRange m.levels.length, 0 ≤ x := by
    intro x hx
    rw [intRange] at hx
    simp at hx
    omega
  constructor
  · rw [scaleLoop_dmpp (r : ℤ) (fin (1/20)) _ _ hm1C hm1R hpos i]
    rw [if_pos ⟨by rw [intRange, hlen]; simp; omega, by exact_mod_cast hir,
      by rw [hm1levels, hlen]; omega⟩]
    rw [hfids, hfids, hsc]
    rw [ddiv_fin (by norm_num)]
    norm_num
  · rw [scaleLoop_dmpp (r : ℤ) (fin (1/20)) _ _ hm1C hm1R hpos r]
    rw [if_neg (by intro h; exact h.2.1 rfl)]
    rw [hm1levels]
    exact href

/-- A 3-level map: level 1 ("L1") is the reference with drawing scale
1/20; level 0 shares fiducials a and b with the reference, at doubled
distance (transform scale 2); level 2 has no fiducials. -/
def c5map : Map :=
  ⟨"building", "L1",
   [⟨"L0", fin (1/10), [], [⟨"a", 0, 0⟩, ⟨"b", 20, 0⟩], [], []⟩,
    ⟨"L1", fin (1/20), [], [⟨"a", 0, 0⟩, ⟨"b", 10, 0⟩], [], []⟩,
    ⟨"L2", fin (1/20), [], [], [], []⟩],
   [], []⟩

/-- Witness for C5 at the concrete 3-level map. -/
theorem claim5_witness :
    (c5map.levels.length = 3 ∧
     c5map.get_reference_level_idx = ((1 : ℕ) : ℤ) ∧
     (1 : ℕ) < 3 ∧ (0 : ℕ) < 3 ∧ (0 : ℕ) ≠ 1 ∧
     ((c5map.levels.getD 1 defLevel)).drawing_meters_per_pixel = fin (1/20) ∧
     (estimateTransform (fidsAt c5map ((1 : ℕ) : ℤ)) (fidsAt c5map ((0 : ℕ) : ℤ))).scale
       = fin 2) ∧
    ((c5map.calculate_all_transforms.levels.getD 0 defLevel)).drawing_meters_per_pixel =
      fin (1/40) ∧
    ((c5map.calculate_all_transforms.levels.getD 1 defLevel)).drawing_meters_per_pixel =
      fin (1/20) := by
  have hlen : c5map.levels.length = 3 := rfl
  have hr : c5map.get_reference_level_idx = ((1 : ℕ) : ℤ) := by
    simp +decide [Map.get_reference_level_idx, c5map, List.findIdx?]
  have href : ((c5map.levels.getD 1 defLevel)).drawing_meters_per_pixel = fin (1/20) := by
    simp [c5map]
  have hsc : (estimateTransform (fidsAt c5map ((1 : ℕ) : ℤ))
      (fidsAt c5map ((0 : ℕ) : ℤ))).scale = fin 2 := by
    have hfa : fidsAt c5map ((1 : ℕ) : ℤ) = [⟨"a", 0, 0⟩, ⟨"b", 10, 0⟩] := by
      simp [fidsAt, c5map]
    have hfb : fidsAt c5map ((0 : ℕ) : ℤ) = [⟨"a", 0, 0⟩, ⟨"b", 20, 0⟩] := by
      simp [fidsAt, c5map]
    have hm : matchedFiducials [(⟨"a", 0, 0⟩ : Fiducial), ⟨"b", 10, 0⟩]
        [(⟨"a", 0, 0⟩ : Fiducial), ⟨"b", 20, 0⟩] =
        [(⟨"a", 0, 0⟩, ⟨"a", 0, 0⟩), (⟨"b", 10, 0⟩, ⟨"b", 20, 0⟩)] := by
      simp +decide [matchedFiducials, firstMatch]
    have hd1 : fdist ⟨"a", (0:ℚ), 0⟩ ⟨"b", 10, 0⟩ = 10 := by
      rw [fdist]; exact sqrtQ_eval (by norm_num) (by norm_num) (by norm_num)
    have hd2 : fdist ⟨"a", (0:ℚ), 0⟩ ⟨"b", 20, 0⟩ = 20 := by
      rw [fdist]; exact sqrtQ_eval (by norm_num) (by norm_num) (by norm_num)
    rw [hfa, hfb, estimateTransform, hm]
    norm_num [distancePairs, hd1, hd2, ddiv, dadd, fin]
  exact ⟨⟨hlen, hr, by norm_num, by norm_num, by norm_num, href, hsc⟩,
    claim5_scale_normalization c5map 1 0 hlen hr (by norm_num) (by norm_num)
      (by norm_num) href hsc⟩

end TrafficEditor

namespace TrafficEditor

theorem insertSorted_perm (s : String) :
    ∀ (l : List String), (insertSorted s l).Perm (s :: l)
  | [] => List.Perm.refl _
  | t :: ts => by
    rw [insertSorted]
    by_cases h : s ≤ t
    · rw [if_pos h]
    · rw [if_neg h]
      exact ((insertSorted_perm s ts).cons t).trans (List.Perm.swap s t ts)

theorem sortStrings_perm : ∀ (l : List String), (sortStrings l).Perm l
  | [] => List.Perm.refl _
  | s :: ss => by
    rw [sortStrings]
    exact (insertSorted_perm s (sortStrings ss)).trans ((sortStrings_perm ss).cons s)

theorem insertSorted_sorted (s : String) :
    ∀ (l : List String), l.Sorted (fun a b => a ≤ b) →
      (insertSorted s l).Sorted (fun a b => a ≤ b)
  | [], _ => List.sorted_singleton s
  | t :: ts, h => by
    rw [insertSorted]
    rcases List.sorted_cons.mp h with ⟨ht, hts⟩
    by_cases hst : s ≤ t
    · rw [if_pos hst]
      exact List.sorted_cons.mpr ⟨fun y hy => by
        rcases List.mem_cons.mp hy with rfl | hyts
        · exact hst
        · exact le_trans hst (ht y hyts), h⟩
    · rw [if_neg hst]
      refine List.sorted_cons.mpr ⟨fun y hy => ?_, insertSorted_sorted s ts hts⟩
      rcases List.mem_cons.mp ((insertSorted_perm s ts).mem_iff.mp hy) with rfl | hyts
      · exact le_of_not_le hst
      · exact ht y hyts

theorem sortStrings_sorted : ∀ (l : List String), (sortStrings l).Sorted (fun a b => a ≤ b)
  | [] => List.sorted_nil
  | s :: ss => by
    rw [sortStrings]
    exact insertSorted_sorted s (sortStrings ss) (sortStrings_sorted ss)

theorem sortStrings_eq_of_perm {l l' : List String} (h : l.Perm l') :
    sortStrings l = sortStrings l' :=
  List.eq_of_perm_of_sorted ((sortStrings_perm l).trans (h.trans (sortStrings_perm l').symm))
    (sortStrings_sorted l) (sortStrings_sorted l')


theorem attach_map_write (l : List (String × Yaml)) :
    l.attach.map (fun kv => (kv.1.1, write_yaml_node kv.1.2)) =
      l.map (fun kv => (kv.1, write_yaml_node kv.2)) :=
  List.attach_map_coe l (fun kv => (kv.1, write_yaml_node kv.2))

theorem sizeOf_yaml_pos (y : Yaml) : 0 < sizeOf y := by
  cases y <;> simp <;> omega

/-- Every document produced by write_yaml_node has sorted keys in every
mapping, at every nesting level. -/
theorem sortedDoc_write_aux : ∀ (n : ℕ) (y : Yaml), sizeOf y ≤ n → SortedDoc (write_yaml_node y)
  | 0, y, h => absurd h (by have := sizeOf_yaml_pos y; omega)
  | n + 1, Yaml.scalar s, _ => by
    rw [write_yaml_node]
    exact SortedDoc.scalar s
  | n + 1, Yaml.seq xs, h => by
    rw [write_yaml_node]
    refine SortedDoc.seq _ ?_
    intro z hz
    rcases List.mem_map.mp hz with ⟨x, hx, rfl⟩
    have hxm : x.1 ∈ xs := x.2
    have hsx : sizeOf x.1 < sizeOf (Yaml.seq xs) := by
      have := List.sizeOf_lt_of_mem hxm
      simp only [Yaml.seq.sizeOf_spec]
      omega
    exact sortedDoc_write_aux n x.1 (by omega)
  | n + 1, Yaml.map kvs, h => by
    rw [write_yaml_node]
    refine SortedDoc.map _ ?_ ?_
    · rw [List.map_map]
      have : (Prod.fst ∘ fun k => (k, valueFor k (kvs.attach.map
          (fun kv => (kv.1.1, write_yaml_node kv.1.2))))) = id := rfl
      rw [this, List.map_id]
      exact sortStrings_sorted _
    · intro kv hkv
      rcases List.mem_map.mp hkv with ⟨k, hk, rfl⟩
      rw [valueFor]
      cases hf : (kvs.attach.map (fun kv => (kv.1.1, write_yaml_node kv.1.2))).find?
          (fun e => e.1 == k) with
      | none => exact SortedDoc.scalar ""
      | some e =>
        have he : e ∈ kvs.attach.map (fun kv => (kv.1.1, write_yaml_node kv.1.2)) :=
          List.mem_of_find?_eq_some hf
        rcases List.mem_map.mp he with ⟨kv0, hkv0, rfl⟩
        have hkv0m : kv0.1 ∈ kvs := kv0.2
        have hs : sizeOf kv0.1.2 < sizeOf (Yaml.map kvs) := by
          have h1 := List.sizeOf_lt_of_mem hkv0m
          have h2 : sizeOf kv0.1.2 < sizeOf kv0.1 := by
            cases hkv1 : kv0.1 with
            | mk a b => simp
          simp only [Yaml.map.sizeOf_spec]
          omega
        exact sortedDoc_write_aux n kv0.1.2 (by omega)

theorem find?_key_perm {l l' : List (String × Yaml)} (h : l.Perm l')
    (hnodup : (l.map Prod.fst).Nodup) (k : String) :
    l.find? (fun kv => kv.1 == k) = l'.find? (fun kv => kv.1 == k) := by
  cases hf : l.find? (fun kv => kv.1 == k) with
  | none =>
    symm
    rw [List.find?_eq_none]
    intro x hx
    exact List.find?_eq_none.mp hf x (h.symm.subset hx)
  | some e =>
    have he : e ∈ l := List.mem_of_find?_eq_some hf
    have hek := List.find?_some hf
    cases hf' : l'.find? (fun kv => kv.1 == k) with
    | none => exact absurd hek (by simpa using List.find?_eq_none.mp hf' e (h.subset he))
    | some e' =>
      have he' : e' ∈ l' := List.mem_of_find?_eq_some hf'
      have hek' := List.find?_some hf'
      have : e = e' := by
        refine List.inj_on_of_nodup_map hnodup he (h.symm.subset he') ?_
        simp only [beq_iff_eq] at hek hek'
        rw [hek, hek']
      rw [this]

/-- write_yaml_node on a mapping is invariant under permuting the
stored key/value entries, provided the keys have no duplicates. -/
theorem write_map_perm (kvs kvs' : List (String × Yaml)) (hperm : kvs.Perm kvs')
    (hnodup : (kvs.map Prod.fst).Nodup) :
    write_yaml_node (Yaml.map kvs) = write_yaml_node (Yaml.map kvs') := by
  rw [write_yaml_node, write_yaml_node, attach_map_write, attach_map_write]
  have hperm' : (kvs.map (fun kv => (kv.1, write_yaml_node kv.2))).Perm
      (kvs'.map (fun kv => (kv.1, write_yaml_node kv.2))) :=
    hperm.map _
  have hkeys : ((kvs.map (fun kv => (kv.1, write_yaml_node kv.2))).map Prod.fst).Perm
      ((kvs'.map (fun kv => (kv.1, write_yaml_node kv.2))).map Prod.fst) :=
    hperm'.map _
  have hnodup' : ((kvs.map (fun kv => (kv.1, write_yaml_node kv.2))).map Prod.fst).Nodup := by
    rw [List.map_map]
    exact hnodup
  have hsort : sortStrings ((kvs.map (fun kv => (kv.1, write_yaml_node kv.2))).map Prod.fst) =
      sortStrings ((kvs'.map (fun kv => (kv.1, write_yaml_node kv.2))).map Prod.fst) :=
    sortStrings_eq_of_perm hkeys
  rw [← hsort]
  refine congrArg Yaml.map (List.map_congr_left ?_)
  intro k _
  rw [valueFor, valueFor, find?_key_perm hperm' hnodup' k]


/-- C7: the canonical serializer emits mappings with keys sorted
lexicographically at every nesting level, and its output is a function
of the mapping contents only: permuting the insertion order of the
entries of a mapping (with no duplicate keys) leaves the emitted
document byte-identical.  In particular every document save_yaml emits
is key-sorted throughout. -/
theorem claim7_canonical_serialization :
    (∀ y : Yaml, SortedDoc (write_yaml_node y)) ∧
    (∀ kvs kvs' : List (String × Yaml), kvs.Perm kvs' → (kvs.map Prod.fst).Nodup →
      write_yaml_node (Yaml.map kvs) = write_yaml_node (Yaml.map kvs')) ∧
    (∀ (lty : Level → Yaml) (lfy : Lift → Yaml) (m : Map),
      SortedDoc (m.save_yaml lty lfy)) :=
  ⟨fun y => sortedDoc_write_aux (sizeOf y) y le_rfl,
   write_map_perm,
   fun lty lfy m => sortedDoc_write_aux (sizeOf _) _ le_rfl⟩

/-- Witness for C7 at a concrete two-key mapping inserted in the two
possible orders. -/
theorem claim7_witness :
    SortedDoc (write_yaml_node (Yaml.map [("b", Yaml.scalar "1"), ("a", Yaml.scalar "2")])) ∧
    (([("b", Yaml.scalar "1"), ("a", Yaml.scalar "2")] : List (String × Yaml)).Perm
       [("a", Yaml.scalar "2"), ("b", Yaml.scalar "1")] ∧
     (([("b", Yaml.scalar "1"), ("a", Yaml.scalar "2")] : List (String × Yaml)).map
       Prod.fst).Nodup) ∧
    write_yaml_node (Yaml.map [("b", Yaml.scalar "1"), ("a", Yaml.scalar "2")]) =
      write_yaml_node (Yaml.map [("a", Yaml.scalar "2"), ("b", Yaml.scalar "1")]) := by
  have hperm : ([("b", Yaml.scalar "1"), ("a", Yaml.scalar "2")] : List (String × Yaml)).Perm
      [("a", Yaml.scalar "2"), ("b", Yaml.scalar "1")] :=
    List.Perm.swap ("a", Yaml.scalar "2") ("b", Yaml.scalar "1") []
  have hnodup : (([("b", Yaml.scalar "1"), ("a", Yaml.scalar "2")] :
      List (String × Yaml)).map Prod.fst).Nodup := by
    simp
  exact ⟨claim7_canonical_serialization.1 _, ⟨hperm, hnodup⟩,
    claim7_canonical_serialization.2.1 _ _ hperm hnodup⟩


end TrafficEditor
